import Mathlib

/-!
Verification development for the premium-report extraction program
(`main_anon.py`): the numeric token parser, the category line matcher,
the page record assembler, the document walker and the tabular renderer,
shallowly embedded over `List Char`, with amounts as exact decimal values
in sign/coefficient/exponent form (the representation of the decimal
library the program uses).
-/

/-- An exact decimal value, as the decimal library represents it: a sign
bit, a coefficient and a base-10 exponent. The denoted value is
`(-1)^neg * coeff * 10^exp`. -/
structure Dec where
  neg : Bool
  coeff : Nat
  exp : Int
  deriving DecidableEq, Repr

/-- Rational value denoted by a decimal. -/
def Dec.val (d : Dec) : Rat :=
  (if d.neg then -1 else 1) * (d.coeff : Rat) * (10 : Rat) ^ d.exp

/-- The decimal zero, `Decimal("0")`. -/
def Dec.zero : Dec := ⟨false, 0, 0⟩

/-- Negation of a decimal: the sign bit is flipped, except that negating a
zero yields the positive zero (the minus operation of the decimal
library). -/
def Dec.negate (d : Dec) : Dec :=
  if d.coeff = 0 then ⟨false, d.coeff, d.exp⟩ else ⟨!d.neg, d.coeff, d.exp⟩

/-- The classic ASCII whitespace characters: space, tab, newline, carriage
return, vertical tab and form feed. This is the fragment of the source
language's whitespace that the token-fragment results below need; the
complete set its string trimming accepts is `isSpacePyFull` further
down. -/
def isSpacePy (c : Char) : Bool :=
  c == ' ' || c == '\t' || c == '\n' || c == '\r' || c == '\x0b' || c == '\x0c'

/-- Trim surrounding whitespace, the `value.strip()` step. -/
def pyStrip (cs : List Char) : List Char :=
  ((cs.dropWhile isSpacePy).reverse.dropWhile isSpacePy).reverse

/-- Character for the base-10 digit `n % 10`. -/
def digitChar (n : Nat) : Char := Char.ofNat (48 + n % 10)

/-- Digits of a natural number in base 10, most significant first, computed
with explicit fuel so that it evaluates by kernel reduction. -/
def natDigitsAux : Nat → Nat → List Char
  | 0, _ => []
  | fuel + 1, n =>
    if n < 10 then [digitChar n]
    else natDigitsAux fuel (n / 10) ++ [digitChar (n % 10)]

/-- Base-10 digit characters of a natural number, most significant first. -/
def natDigits (n : Nat) : List Char := natDigitsAux (n + 1) n

/-- Numeric value of a run of base-10 digit characters. -/
def digitsToNat (ds : List Char) : Nat :=
  ds.foldl (fun n c => n * 10 + (c.toNat - 48)) 0

/-- Optional leading sign of a numeral: the sign bit and the rest. -/
def parseSign (cs : List Char) : Bool × List Char :=
  match cs with
  | c :: r => if c == '+' then (false, r) else if c == '-' then (true, r) else (false, cs)
  | [] => (false, cs)

/-- Optional exponent clause of a decimal numeral: either nothing, or the
letter e in either case, an optional sign and at least one digit, consuming
the whole remaining input. Returns the signed exponent. -/
def parseExponent : List Char → Option Int
  | [] => some 0
  | c :: r =>
    if c == 'e' || c == 'E' then
      let p : Bool × List Char :=
        match r with
        | '+' :: t => (false, t)
        | '-' :: t => (true, t)
        | t => (false, t)
      let ds := p.2.takeWhile Char.isDigit
      let rest := p.2.dropWhile Char.isDigit
      if ds = [] ∨ rest ≠ [] then none
      else some ((if p.1 then -1 else 1) * (digitsToNat ds : Int))
    else none

/-- Finite-numeral fragment of the decimal constructor: optional
surrounding whitespace, an optional sign, an integer digit run, an optional
decimal point with a fractional digit run (at least one digit between the
two runs), and an optional exponent clause. Regex-captured amount tokens
always land in this fragment, which is all the token-fragment results below
use; the constructor in full — NaN and Infinity forms, underscore removal
and the complete whitespace set — is modelled by `parseDecimalPy` further
down, and the results about arbitrary inputs are stated over that full
model. -/
def parseDecimal (cs0 : List Char) : Option Dec :=
  let cs := pyStrip cs0
  let s := parseSign cs
  let ip := s.2.takeWhile Char.isDigit
  let r1 := s.2.dropWhile Char.isDigit
  let fr : List Char × List Char :=
    if r1.head? = some '.' then
      ((r1.drop 1).takeWhile Char.isDigit, (r1.drop 1).dropWhile Char.isDigit)
    else ([], r1)
  if ip.length + fr.1.length = 0 then none
  else
    match parseExponent fr.2 with
    | none => none
    | some e => some ⟨s.1, digitsToNat (ip ++ fr.1), e - (fr.1.length : Int)⟩

/-- True when the token ends with the two credit-suffix letters C then R. -/
def endsWithCR (cs : List Char) : Bool :=
  cs.reverse.take 2 == ['R', 'C']

/-- Drop the last two characters, the `value[:-2]` step. -/
def dropLast2 (cs : List Char) : List Char := cs.dropLast.dropLast

/-- Remove every comma, the thousands-separator removal step. -/
def removeCommas (cs : List Char) : List Char := cs.filter (fun c => c ≠ ',')

/-- Embedding of `parse_amount` on character lists, restricted to the
finite-numeral fragment (the value space `Dec`): trim, zero-sentinel
short-circuit, credit-suffix detection and removal, comma removal, decimal
conversion with silent zero fallback, and negation for credits. On every
regex-captured amount token this agrees exactly with the source, since the
tokens are finite ASCII numerals; the model over the complete value space,
faithful on arbitrary ASCII input, is `parseAmountPyChars` further down. -/
def parseAmountChars (s : List Char) : Dec :=
  let v := pyStrip s
  if v = ['.', '0', '0'] then Dec.zero
  else
    let is_credit := endsWithCR v
    let v1 := if is_credit then dropLast2 v else v
    let v2 := removeCommas v1
    match parseDecimal v2 with
    | none => Dec.zero
    | some a => if is_credit then a.negate else a

/-- Embedding of `parse_amount`. -/
def parse_amount (s : String) : Dec := parseAmountChars s.data

/-- Round the quotient of two naturals to the nearest integer, ties to the
even integer (the rescaling rule of the decimal library). The divisor is
expected positive. -/
def divideHalfEven (a b : Nat) : Nat :=
  let q := a / b
  let r := a % b
  if 2 * r < b then q
  else if b < 2 * r then q + 1
  else if q % 2 = 0 then q else q + 1

/-- Coefficient of a decimal rescaled to exponent `-2` with half-even
rounding: the integer nearest to `coeff * 10 ^ (exp + 2)`. -/
def rescale2 (d : Dec) : Nat :=
  if 0 ≤ d.exp + 2 then d.coeff * 10 ^ (d.exp + 2).toNat
  else divideHalfEven d.coeff (10 ^ (-(d.exp + 2)).toNat)

/-- Two zero-padded base-10 digits of `m % 100`. -/
def pad2 (m : Nat) : List Char := [digitChar (m / 10), digitChar m]

/-- Fixed two-decimal rendering of an amount, the `f"{amount:.2f}"` step:
the sign of the decimal, then the digits of its coefficient rescaled
half-even to two fractional places. -/
def formatFixed2 (d : Dec) : String :=
  let n := rescale2 d
  String.mk ((if d.neg then ['-'] else []) ++ natDigits (n / 100) ++ '.' :: pad2 (n % 100))

/-- Embedding of `format_amount`. The equality test of the source compares
numeric values, which for a decimal means a zero coefficient. -/
def format_amount (amount : Dec) : String :=
  if amount.coeff = 0 then (".00") else formatFixed2 amount

/-- The six category labels, in their fixed enumeration order. -/
def TRANSACTION_TYPES : List String :=
  [("NEW POLICIES"), ("REWRITES"), ("ADDED PREMIUM"),
   ("RETURN PREMIUM"), ("RENEWALS"), ("CANCELLATIONS")]

/-- Match of the amount grammar at the head of the input: a maximal
nonempty run of digits and commas, a decimal point, exactly two digits and
an optional trailing credit suffix. The regex backtracking of the source is
vacuous here: the character after a maximal run can never extend a failed
match. Returns the matched token and the remaining input. -/
def matchAmount (cs : List Char) : Option (List Char × List Char) :=
  let run := cs.takeWhile (fun c => c.isDigit || c == ',')
  let r1 := cs.dropWhile (fun c => c.isDigit || c == ',')
  if run = [] then none
  else
    match r1 with
    | '.' :: d1 :: d2 :: rest =>
      if d1.isDigit && d2.isDigit then
        match rest with
        | 'C' :: 'R' :: rest2 => some (run ++ '.' :: d1 :: d2 :: ['C', 'R'], rest2)
        | _ => some (run ++ ['.', d1, d2], rest)
      else none
    | _ => none

/-- Attempt of the full line pattern with one specific label at the current
position: the label literal, one or more whitespace characters, then an
amount token. Returns the label, the captured amount token and the
remaining input. -/
def tryLabel (lbl : String) (cs : List Char) : Option (String × List Char × List Char) :=
  if lbl.data.isPrefixOf cs then
    let after := cs.drop lbl.data.length
    let ws := after.takeWhile isSpacePy
    let rest := after.dropWhile isSpacePy
    if ws = [] then none
    else
      match matchAmount rest with
      | some pr => some (lbl, pr.1, pr.2)
      | none => none
  else none

/-- Alternation over the labels, tried in enumeration order. -/
def tryLabels : List String → List Char → Option (String × List Char × List Char)
  | [], _ => none
  | l :: ls, cs =>
    match tryLabel l cs with
    | some r => some r
    | none => tryLabels ls cs

/-- Scanner for all pattern matches, modelling the multiline anchored
search of the source: a match may start at the beginning of the text or
right after a newline; after a match the scan resumes past the matched text
(which ends in a non-newline character, so that position is never a line
start); after a failed position the scan advances one character. Fuel is
the text length, so the function evaluates by kernel reduction. -/
def scanAux : Nat → List Char → Bool → List (String × List Char)
  | 0, _, _ => []
  | _ + 1, [], _ => []
  | fuel + 1, c :: rest, atStart =>
    if atStart then
      match tryLabels TRANSACTION_TYPES (c :: rest) with
      | some r => (r.1, r.2.1) :: scanAux fuel r.2.2 false
      | none => scanAux fuel rest (c == '\n')
    else scanAux fuel rest (c == '\n')

/-- All matches of the line pattern over the text, in text order: pairs of
a label and the captured first amount token. -/
def findMatches (t : String) : List (String × List Char) :=
  scanAux t.data.length t.data true

/-- The match loop of `extract_page_data`: fold the matches in text order
into a label-to-amount association list, keeping only the first occurrence
of each label. -/
def buildValuesAux : List (String × Dec) → List (String × List Char) → List (String × Dec)
  | acc, [] => acc
  | acc, (l, g) :: ms =>
    buildValuesAux
      (if (acc.find? (fun p => p.1 == l)).isSome then acc
       else acc ++ [(l, parseAmountChars g)]) ms

/-- Category-to-amount map collected from a page text. -/
def extractValues (t : String) : List (String × Dec) :=
  buildValuesAux [] (findMatches t)

/-- Lookup with the zero default, the `values.get(key, Decimal("0"))`
step. -/
def lookupD (vs : List (String × Dec)) (l : String) : Dec :=
  match vs.find? (fun p => p.1 == l) with
  | some p => p.2
  | none => Dec.zero

/-- One page's extracted record, the `CompanyData` named tuple. -/
structure CompanyData where
  company : String
  new_policies : Dec
  rewrites : Dec
  added_premium : Dec
  return_premium : Dec
  renewals : Dec
  cancellations : Dec
  deriving DecidableEq, Repr

/-- Embedding of `extract_page_data`. The page text is `none` when the
underlying text extraction produced nothing; a `none` or empty text, or a
text without any matching category line, yields no record. -/
def extract_page_data (text : Option String) (company : String) : Option CompanyData :=
  match text with
  | none => none
  | some t =>
    if t = ("") then none
    else
      let values := extractValues t
      if values = [] then none
      else
        some
          { company := company
            new_policies := lookupD values ("NEW POLICIES")
            rewrites := lookupD values ("REWRITES")
            added_premium := lookupD values ("ADDED PREMIUM")
            return_premium := lookupD values ("RETURN PREMIUM")
            renewals := lookupD values ("RENEWALS")
            cancellations := lookupD values ("CANCELLATIONS") }

/-- The configured page assignments, in configured order (an
insertion-ordered dict in the source). -/
def PAGES : List (Nat × String) :=
  [(4, ("Insurance Division 4")), (5, ("Insurance Division 5")),
   (7, ("Insurance Division 7")), (8, ("Insurance Division 8")),
   (10, ("Insurance Division 10")), (11, ("Insurance Division 11"))]

/-- Walk of a list of assignments over the document's extracted page texts
(one optional text per page, in document order): an assignment whose page
number exceeds the page count warns and is skipped, a page without a usable
record warns and is skipped, records are collected in assignment order.
Returns the records and the warnings. -/
def extractPdfAux : List (Nat × String) → List (Option String) → List CompanyData × List String
  | [], _ => ([], [])
  | (pn, company) :: rest, pages =>
    if pages.length < pn then
      let r := extractPdfAux rest pages
      (r.1, (("Warning: Page ") ++ Nat.repr pn ++ (" not in PDF")) :: r.2)
    else
      match extract_page_data (pages.getD (pn - 1) none) company with
      | some d => let r := extractPdfAux rest pages; (d :: r.1, r.2)
      | none =>
        let r := extractPdfAux rest pages
        (r.1, (("Warning: Could not extract data from page ") ++ Nat.repr pn) :: r.2)

/-- Embedding of `extract_pdf`: the document is the list of its pages'
extracted texts. -/
def extract_pdf (pages : List (Option String)) : List CompanyData × List String :=
  extractPdfAux PAGES pages

/-- The fixed tabular header cells. -/
def CSV_HEADERS : List String :=
  [("Company"), ("New Policies"), ("Rewrites"), ("Added Premium"),
   ("Return Premium"), ("Renewals"), ("Cancellations")]

/-- Minimal quoting of one cell, as the csv writer does: a cell containing
a separator, a quote or a line break is wrapped in quotes with inner quotes
doubled; any other cell is written as is. -/
def csvField (s : String) : String :=
  if s.data.any (fun c => c == ',' || c == '"' || c == '\n' || c == '\r') then
    String.mk ('"' :: (s.data.flatMap (fun c => if c == '"' then ['"', '"'] else [c])) ++ ['"'])
  else s

/-- One serialized row: quoted cells joined by the separator. -/
def csvRow (cells : List String) : String :=
  String.intercalate (",") (cells.map csvField)

/-- Rows of the tabular file produced by `write_csv`: the header row, then
one row per record with every amount formatted. -/
def write_csv_lines (data : List CompanyData) : List String :=
  csvRow CSV_HEADERS ::
    data.map (fun row =>
      csvRow [row.company, format_amount row.new_policies, format_amount row.rewrites,
        format_amount row.added_premium, format_amount row.return_premium,
        format_amount row.renewals, format_amount row.cancellations])

/-- Half-even rounding relation between an integer and a rational: the
integer is within one half of the value, and at exact half distance the
integer is even. This is the specification-side characterization of the
decimal half-even convention, independent of the rescaling algorithm. -/
def halfEvenRel (n : Nat) (x : Rat) : Prop :=
  |(n : Rat) - x| < 1 / 2 ∨ (|(n : Rat) - x| = 1 / 2 ∧ Even n)

/-- Amount of the first match of a label in the text, in text order, zero
when the label never matches. This is the specification-side reading of the
first-occurrence rule, phrased directly on the match list. -/
def firstAmount (t : String) (l : String) : Dec :=
  match (findMatches t).find? (fun m => m.1 == l) with
  | some m => parseAmountChars m.2
  | none => Dec.zero

deriving instance DecidableEq for Except

theorem isDigit_ne_R {c : Char} (h : c.isDigit = true) : c ≠ 'R' := by
  intro hc; rw [hc] at h; exact absurd h (by decide)

theorem isDigit_ne_minus {c : Char} (h : c.isDigit = true) : c ≠ '-' := by
  intro hc; rw [hc] at h; exact absurd h (by decide)

/-- Claim C6: the parser meets the six documented point evaluations: the zero
sentinel, comma removal, credit-suffix negation with and without commas,
and the silent zero fallback on malformed and empty input. Values are
compared numerically, as the source's decimal equality does. -/
theorem parseAmountExamples :
    (parse_amount (".00")).val = 0 ∧
      (parse_amount ("21,149.00")).val = 21149 ∧
      (parse_amount ("100.00CR")).val = -100 ∧
      (parse_amount ("1,500.50CR")).val = -(3001 / 2) ∧
      (parse_amount ("invalid")).val = 0 ∧
      (parse_amount ("")).val = 0 := by
  have h1 : parse_amount (".00") = Dec.zero := by decide
  have h2 : parse_amount ("21,149.00") = ⟨false, 2114900, -2⟩ := by decide
  have h3 : parse_amount ("100.00CR") = ⟨true, 10000, -2⟩ := by decide
  have h4 : parse_amount ("1,500.50CR") = ⟨true, 150050, -2⟩ := by decide
  have h5 : parse_amount ("invalid") = Dec.zero := by decide
  have h6 : parse_amount ("") = Dec.zero := by decide
  refine ⟨?_, ?_, ?_, ?_, ?_, ?_⟩
  · rw [h1]; simp [Dec.zero, Dec.val]
  · rw [h2]; simp only [Dec.val]; norm_num
  · rw [h3]; simp only [Dec.val]; norm_num
  · rw [h4]; simp only [Dec.val]; norm_num
  · rw [h5]; simp [Dec.zero, Dec.val]
  · rw [h6]; simp [Dec.zero, Dec.val]


/-- Claim C1: the line pattern's first numeric field requires at least one digit or
comma before the decimal point, so a page whose category lines carry the
bare zero sentinel as their first field yields no match at all and no
record: the matcher evaluated on the repository's own zero-value test page
returns nothing. -/
theorem zeroSentinelFirstFieldRejected :
    findMatches ("NEW POLICIES .00 .00 .00\nREWRITES .00 .00 .00\n") = [] ∧
      extract_page_data
        (some ("NEW POLICIES .00 .00 .00\nREWRITES .00 .00 .00\n")) ("Test Company") =
        none := by
  constructor
  · decide
  · decide

/-- Claim C5, counterexample: the serialized header row carries no space after the separating commas,
so the claimed header literal (with spaces) is not the first row the
renderer emits for the documented single-record result set. -/
theorem csvHeaderLiteralCounterexample :
    (write_csv_lines
        [⟨("Insurance Division 4"), ⟨false, 2114900, -2⟩, Dec.zero, ⟨false, 150050, -2⟩,
          ⟨true, 50000, -2⟩, ⟨false, 1000000, -2⟩, Dec.zero⟩]).head? ≠
        some ("Company, New Policies, Rewrites, Added Premium, Return Premium, Renewals, Cancellations") ∧
      write_csv_lines
          [⟨("Insurance Division 4"), ⟨false, 2114900, -2⟩, Dec.zero, ⟨false, 150050, -2⟩,
            ⟨true, 50000, -2⟩, ⟨false, 1000000, -2⟩, Dec.zero⟩] ≠
        [("Company, New Policies, Rewrites, Added Premium, Return Premium, Renewals, Cancellations"),
         ("Insurance Division 4,21149.00,.00,1500.50,-500.00,10000.00,.00")] := by
  constructor
  · decide
  · decide

/-- Claim C5, as amended: the renderer emits, for the documented single-record result set,
exactly two rows: the header row with the seven fixed cells joined by bare
commas, then the documented data row. -/
theorem csvRendererRowsAmended :
    write_csv_lines
        [⟨("Insurance Division 4"), ⟨false, 2114900, -2⟩, Dec.zero, ⟨false, 150050, -2⟩,
          ⟨true, 50000, -2⟩, ⟨false, 1000000, -2⟩, Dec.zero⟩] =
      [("Company,New Policies,Rewrites,Added Premium,Return Premium,Renewals,Cancellations"),
       ("Insurance Division 4,21149.00,.00,1500.50,-500.00,10000.00,.00")] := by
  decide

/-- Lookup after the match fold: the first amount recorded in the
accumulator wins, otherwise the first occurrence in the remaining match
list wins. -/
theorem find?_buildValuesAux (ms : List (String × List Char)) :
    ∀ (acc : List (String × Dec)) (l : String),
      (buildValuesAux acc ms).find? (fun p => p.1 == l) =
        (acc.find? (fun p => p.1 == l)).or
          (((ms.find? (fun m => m.1 == l)).map (fun m => (m.1, parseAmountChars m.2)))) := by
  induction ms with
  | nil => intro acc l; simp [buildValuesAux, Option.or_none]
  | cons m ms ih =>
    intro acc l
    obtain ⟨ml, g⟩ := m
    rw [buildValuesAux, ih]
    by_cases hml : (ml == l) = true
    · have hml' : ml = l := eq_of_beq hml
      subst hml'
      by_cases hA : (acc.find? (fun p => p.1 == ml)).isSome = true
      · obtain ⟨a, ha⟩ := Option.isSome_iff_exists.mp hA
        rw [if_pos hA, ha]
        simp
      · have hAn : acc.find? (fun p => p.1 == ml) = none :=
          Option.not_isSome_iff_eq_none.mp hA
        rw [if_neg hA, List.find?_append, hAn]
        simp
    · have hfc : ((ml, g) :: ms).find? (fun m => m.1 == l) = ms.find? (fun m => m.1 == l) :=
        List.find?_cons_of_neg _ (by simpa using hml)
      rw [hfc]
      by_cases hA : (acc.find? (fun p => p.1 == ml)).isSome = true
      · rw [if_pos hA]
      · have hone : ([(ml, parseAmountChars g)].find? (fun p => p.1 == l)) = none := by
          rw [List.find?_cons_of_neg _ (by simpa using hml), List.find?_nil]
        rw [if_neg hA, List.find?_append, hone, Option.or_none]

/-- The defaulted lookup over the collected values is exactly the amount of
the first occurrence of the label in the text. -/
theorem lookupD_extractValues (t : String) (l : String) :
    lookupD (extractValues t) l = firstAmount t l := by
  unfold lookupD extractValues firstAmount
  rw [find?_buildValuesAux, List.find?_nil, Option.none_or]
  cases hf : (findMatches t).find? (fun m => m.1 == l) with
  | none => rfl
  | some m => rfl

/-- Claim C2: first-occurrence rule: whenever a page text yields a record, every
field of that record is the parsed amount of the first match of its label
in text order; matches of the same label later in the text do not affect
the record. -/
theorem firstOccurrenceRule (t : String) (c : String) (r : CompanyData)
    (h : extract_page_data (some t) c = some r) :
    r.new_policies = firstAmount t ("NEW POLICIES") ∧
      r.rewrites = firstAmount t ("REWRITES") ∧
      r.added_premium = firstAmount t ("ADDED PREMIUM") ∧
      r.return_premium = firstAmount t ("RETURN PREMIUM") ∧
      r.renewals = firstAmount t ("RENEWALS") ∧
      r.cancellations = firstAmount t ("CANCELLATIONS") := by
  simp only [extract_page_data] at h
  by_cases ht : t = ("")
  · rw [if_pos ht] at h; exact absurd h (by simp)
  · rw [if_neg ht] at h
    by_cases hv : extractValues t = []
    · rw [if_pos hv] at h; exact absurd h (by simp)
    · rw [if_neg hv] at h
      have hr := (Option.some_inj.mp h).symm
      subst hr
      refine ⟨?_, ?_, ?_, ?_, ?_, ?_⟩ <;> exact lookupD_extractValues t _

/-- Witness: on a page with two sections repeating the same label with
different amounts, the record field equals the first occurrence's amount. -/
theorem firstOccurrenceRuleWitness :
    extract_page_data
        (some ("DIRECT BILLED\nNEW POLICIES 1,000.00 150.00 850.00\nAGENCY BILLED\nNEW POLICIES 2,000.00 300.00 1,700.00\n"))
        ("T") =
      some ⟨("T"), ⟨false, 100000, -2⟩, Dec.zero, Dec.zero, Dec.zero, Dec.zero, Dec.zero⟩ ∧
      (⟨false, 100000, -2⟩ : Dec) =
        firstAmount
          ("DIRECT BILLED\nNEW POLICIES 1,000.00 150.00 850.00\nAGENCY BILLED\nNEW POLICIES 2,000.00 300.00 1,700.00\n")
          ("NEW POLICIES") :=
  ⟨by decide,
   (firstOccurrenceRule
      ("DIRECT BILLED\nNEW POLICIES 1,000.00 150.00 850.00\nAGENCY BILLED\nNEW POLICIES 2,000.00 300.00 1,700.00\n")
      ("T")
      ⟨("T"), ⟨false, 100000, -2⟩, Dec.zero, Dec.zero, Dec.zero, Dec.zero, Dec.zero⟩
      (by decide)).1⟩

/-- The match fold yields an empty map exactly when it started empty and
there were no matches. -/
theorem buildValuesAux_eq_nil (ms : List (String × List Char)) :
    ∀ acc : List (String × Dec), buildValuesAux acc ms = [] ↔ acc = [] ∧ ms = [] := by
  induction ms with
  | nil => intro acc; simp [buildValuesAux]
  | cons m ms ih =>
    intro acc
    obtain ⟨ml, g⟩ := m
    rw [buildValuesAux, ih]
    constructor
    · rintro ⟨h1, -⟩
      split_ifs at h1 with hc
      · rw [h1] at hc; simp at hc
      · simp at h1
    · rintro ⟨-, h⟩
      exact absurd h (by simp)

/-- The collected category map of a text is empty exactly when no category
line matched. -/
theorem extractValues_eq_nil (t : String) :
    extractValues t = [] ↔ findMatches t = [] := by
  unfold extractValues
  rw [buildValuesAux_eq_nil]
  simp

/-- Claim C3: the page record assembler returns no record exactly when the text is
absent, empty, or matched no category line; and whenever it does return a
record, that record carries the page label and the defaulted lookup of each
of the six categories (matched categories keep their first amount, the
others are the zero amount). -/
theorem pageRecordAssemblerSpec (text : Option String) (c : String) :
    (extract_page_data text c = none ↔
      text = none ∨ text = some ("") ∨ findMatches (text.getD ("")) = []) ∧
      ∀ t r, text = some t → extract_page_data text c = some r →
        r = ⟨c, lookupD (extractValues t) ("NEW POLICIES"),
             lookupD (extractValues t) ("REWRITES"),
             lookupD (extractValues t) ("ADDED PREMIUM"),
             lookupD (extractValues t) ("RETURN PREMIUM"),
             lookupD (extractValues t) ("RENEWALS"),
             lookupD (extractValues t) ("CANCELLATIONS")⟩ := by
  constructor
  · cases text with
    | none => simp [extract_page_data]
    | some t =>
      simp only [extract_page_data, Option.getD_some]
      by_cases ht : t = ("")
      · subst ht; simp
      · rw [if_neg ht]
        by_cases hv : extractValues t = []
        · rw [if_pos hv]
          simp only [true_iff]
          exact Or.inr (Or.inr ((extractValues_eq_nil t).mp hv))
        · rw [if_neg hv]
          simp only [reduceCtorEq, false_iff]
          push_neg
          refine ⟨by simp, ?_, ?_⟩
          · intro hc; exact ht (by injection hc)
          · intro hm; exact hv ((extractValues_eq_nil t).mpr hm)
  · intro t r htext h
    subst htext
    simp only [extract_page_data] at h
    by_cases ht : t = ("")
    · rw [if_pos ht] at h; exact absurd h (by simp)
    · rw [if_neg ht] at h
      by_cases hv : extractValues t = []
      · rw [if_pos hv] at h; exact absurd h (by simp)
      · rw [if_neg hv] at h
        exact (Option.some_inj.mp h).symm

/-- Witness: a page without category lines yields no record, and the
zero-value defaulting of a one-category page is given by the defaulted
lookups. -/
theorem pageRecordAssemblerSpecWitness :
    extract_page_data (some ("no categories here")) ("T") = none ∧
      (⟨("T"), ⟨false, 100000, -2⟩, Dec.zero, Dec.zero, Dec.zero, Dec.zero, Dec.zero⟩ : CompanyData) =
        ⟨("T"),
         lookupD (extractValues ("NEW POLICIES 1,000.00 150.00 850.00\n")) ("NEW POLICIES"),
         lookupD (extractValues ("NEW POLICIES 1,000.00 150.00 850.00\n")) ("REWRITES"),
         lookupD (extractValues ("NEW POLICIES 1,000.00 150.00 850.00\n")) ("ADDED PREMIUM"),
         lookupD (extractValues ("NEW POLICIES 1,000.00 150.00 850.00\n")) ("RETURN PREMIUM"),
         lookupD (extractValues ("NEW POLICIES 1,000.00 150.00 850.00\n")) ("RENEWALS"),
         lookupD (extractValues ("NEW POLICIES 1,000.00 150.00 850.00\n")) ("CANCELLATIONS")⟩ :=
  ⟨(pageRecordAssemblerSpec (some ("no categories here")) ("T")).1.mpr
      (Or.inr (Or.inr (by decide))),
   (pageRecordAssemblerSpec (some ("NEW POLICIES 1,000.00 150.00 850.00\n")) ("T")).2
      ("NEW POLICIES 1,000.00 150.00 850.00\n")
      ⟨("T"), ⟨false, 100000, -2⟩, Dec.zero, Dec.zero, Dec.zero, Dec.zero, Dec.zero⟩
      rfl (by decide)⟩

/-- Records produced by the walker over any assignment list: exactly the
assignments whose page is present and whose page yields a record, in
assignment order. -/
theorem extractPdfAux_records (L : List (Nat × String)) (pages : List (Option String)) :
    (extractPdfAux L pages).1 =
      L.filterMap (fun pc =>
        if pc.1 ≤ pages.length then extract_page_data (pages.getD (pc.1 - 1) none) pc.2
        else none) := by
  induction L with
  | nil => simp [extractPdfAux]
  | cons pc L ih =>
    obtain ⟨pn, c⟩ := pc
    rw [extractPdfAux, List.filterMap_cons]
    by_cases hp : pages.length < pn
    · rw [if_pos hp]
      have hle : ¬ pn ≤ pages.length := by omega
      simp only [hle, if_false]
      exact ih
    · rw [if_neg hp]
      have hle : pn ≤ pages.length := by omega
      simp only [hle, if_true]
      cases hx : extract_page_data (pages.getD (pn - 1) none) c with
      | none => simpa using ih
      | some d => simpa using ih

/-- An assignment whose page number exceeds the page count contributes its
warning to the walker's warning list. -/
theorem extractPdfAux_warning (L : List (Nat × String)) (pages : List (Option String))
    (pn : Nat) (c : String) (h : (pn, c) ∈ L) (hp : pages.length < pn) :
    (("Warning: Page ") ++ Nat.repr pn ++ (" not in PDF")) ∈ (extractPdfAux L pages).2 := by
  induction L with
  | nil => exact absurd h (by simp)
  | cons pc L ih =>
    obtain ⟨pn2, c2⟩ := pc
    rcases List.mem_cons.mp h with heq | hmem
    · obtain ⟨h1, h2⟩ := Prod.mk.injEq .. ▸ heq
      subst h1; subst h2
      rw [extractPdfAux, if_pos hp]
      exact List.mem_cons_self _ _
    · rw [extractPdfAux]
      by_cases hp2 : pages.length < pn2
      · rw [if_pos hp2]
        exact List.mem_cons_of_mem _ (ih hmem)
      · rw [if_neg hp2]
        cases hx : extract_page_data (pages.getD (pn2 - 1) none) c2 with
        | none => simpa using List.mem_cons_of_mem _ (ih hmem)
        | some d => simpa using ih hmem

/-- Claim C4: the document walker visits exactly the six configured assignments, in
configured order; the excluded pages are never assigned; the output record
list is, for every document, the assignment-ordered list of records of the
present pages that yielded one; and every assignment whose page number
exceeds the page count contributes a missing-page warning. -/
theorem documentWalkerSpec :
    PAGES.map (fun pc => pc.1) = [4, 5, 7, 8, 10, 11] ∧
      (∀ c2 : String, ((6, c2) ∉ PAGES) ∧ ((9, c2) ∉ PAGES) ∧ ((12, c2) ∉ PAGES)) ∧
      (∀ pages : List (Option String),
        (extract_pdf pages).1 =
          PAGES.filterMap (fun pc =>
            if pc.1 ≤ pages.length then extract_page_data (pages.getD (pc.1 - 1) none) pc.2
            else none)) ∧
      ∀ pages : List (Option String), ∀ pn c2, (pn, c2) ∈ PAGES → pages.length < pn →
        (("Warning: Page ") ++ Nat.repr pn ++ (" not in PDF")) ∈ (extract_pdf pages).2 := by
  refine ⟨by decide, ?_, ?_, ?_⟩
  · intro c2
    refine ⟨?_, ?_, ?_⟩ <;> · intro hm; simp [PAGES] at hm
  · intro pages
    exact extractPdfAux_records PAGES pages
  · intro pages pn c2 hm hp
    exact extractPdfAux_warning PAGES pages pn c2 hm hp

/-- Witness: on an empty document, assignment page 4 is missing and its
warning is emitted. -/
theorem documentWalkerSpecWitness :
    ((4, ("Insurance Division 4")) ∈ PAGES) ∧
      ([] : List (Option String)).length < 4 ∧
      (("Warning: Page ") ++ Nat.repr 4 ++ (" not in PDF")) ∈
        (extract_pdf ([] : List (Option String))).2 :=
  ⟨by decide, by decide,
   documentWalkerSpec.2.2.2 [] 4 ("Insurance Division 4") (by decide) (by decide)⟩

/-- Division with half-even rounding lands on the integer nearest the exact
quotient, ties going to the even integer. -/
theorem divideHalfEven_halfEvenRel (a b : Nat) (hb : 0 < b) :
    halfEvenRel (divideHalfEven a b) ((a : Rat) / (b : Rat)) := by
  have hbq : (0 : Rat) < (b : Rat) := by exact_mod_cast hb
  have hb0 : ((b : Rat)) ≠ 0 := ne_of_gt hbq
  have hdm : b * (a / b) + a % b = a := Nat.div_add_mod a b
  have hrb : a % b < b := Nat.mod_lt _ hb
  have hrbq : ((a % b : Nat) : Rat) < (b : Rat) := by exact_mod_cast hrb
  have hrq0 : (0 : Rat) ≤ ((a % b : Nat) : Rat) := by positivity
  have hx : (a : Rat) / (b : Rat) = ((a / b : Nat) : Rat) + ((a % b : Nat) : Rat) / (b : Rat) := by
    have hdm' : ((a : Rat)) = (b : Rat) * ((a / b : Nat) : Rat) + ((a % b : Nat) : Rat) := by
      exact_mod_cast hdm.symm
    rw [hdm']
    field_simp
    ring
  have hQdist : (((a / b : Nat) : Rat)) - ((a : Rat) / (b : Rat)) =
      -(((a % b : Nat) : Rat) / (b : Rat)) := by
    rw [hx]; ring
  have hQ1dist : (((a / b + 1 : Nat) : Rat)) - ((a : Rat) / (b : Rat)) =
      ((b : Rat) - ((a % b : Nat) : Rat)) / (b : Rat) := by
    rw [hx]; push_cast; field_simp; ring
  simp only [divideHalfEven]
  by_cases h1 : 2 * (a % b) < b
  · rw [if_pos h1]
    left
    rw [hQdist, abs_neg, abs_of_nonneg (by positivity)]
    rw [div_lt_div_iff₀ hbq (by norm_num)]
    have h1q : 2 * ((a % b : Nat) : Rat) < (b : Rat) := by exact_mod_cast h1
    linarith
  · by_cases h2 : b < 2 * (a % b)
    · rw [if_neg h1, if_pos h2]
      left
      rw [hQ1dist, abs_of_nonneg (div_nonneg (by linarith) (le_of_lt hbq))]
      rw [div_lt_div_iff₀ hbq (by norm_num)]
      have h2q : (b : Rat) < 2 * ((a % b : Nat) : Rat) := by exact_mod_cast h2
      linarith
    · have h3 : 2 * (a % b) = b := by omega
      have h3q : 2 * ((a % b : Nat) : Rat) = (b : Rat) := by exact_mod_cast h3
      have hhalf : ((a % b : Nat) : Rat) / (b : Rat) = 1 / 2 := by
        rw [div_eq_div_iff hb0 (by norm_num)]
        linarith
      rw [if_neg h1, if_neg h2]
      by_cases h4 : (a / b) % 2 = 0
      · rw [if_pos h4]
        right
        refine ⟨?_, Nat.even_iff.mpr h4⟩
        rw [hQdist, abs_neg, abs_of_nonneg (by positivity), hhalf]
      · rw [if_neg h4]
        right
        constructor
        · rw [hQ1dist, abs_of_nonneg (div_nonneg (by linarith) (le_of_lt hbq))]
          have heq2 : ((b : Rat) - ((a % b : Nat) : Rat)) = ((a % b : Nat) : Rat) := by linarith
          rw [heq2, hhalf]
        · exact Nat.even_add_one.mpr (by rw [Nat.even_iff]; omega)

/-- The absolute value of a decimal is its coefficient scaled by its
exponent. -/
theorem Dec.abs_val (d : Dec) : |d.val| = (d.coeff : Rat) * (10 : Rat) ^ d.exp := by
  have hp : (0 : Rat) < (10 : Rat) ^ d.exp := zpow_pos (by norm_num) _
  have hc : (0 : Rat) ≤ ((d.coeff : Nat) : Rat) := by positivity
  unfold Dec.val
  cases hn : d.neg
  · rw [if_neg (by simp), one_mul, abs_of_nonneg (mul_nonneg hc (le_of_lt hp))]
  · rw [if_pos rfl, neg_one_mul, neg_mul, abs_neg, abs_of_nonneg (mul_nonneg hc (le_of_lt hp))]

/-- The rescaled coefficient used by the formatter is a half-even rounding
of the amount's absolute value in hundredths. -/
theorem rescale2_halfEvenRel (d : Dec) :
    halfEvenRel (rescale2 d) (|d.val| * 100) := by
  rw [Dec.abs_val]
  unfold rescale2
  by_cases he : 0 ≤ d.exp + 2
  · rw [if_pos he]
    left
    have hexp : ((d.coeff * 10 ^ (d.exp + 2).toNat : Nat) : Rat) =
        (d.coeff : Rat) * (10 : Rat) ^ d.exp * 100 := by
      push_cast
      rw [← zpow_natCast (10 : Rat) (d.exp + 2).toNat, Int.toNat_of_nonneg he,
        zpow_add₀ (by norm_num : (10 : Rat) ≠ 0)]
      norm_num
      ring
    rw [hexp, sub_self, abs_zero]
    norm_num
  · rw [if_neg he]
    have hb : 0 < 10 ^ (-(d.exp + 2)).toNat := Nat.pos_pow_of_pos _ (by norm_num)
    have hxe : ((d.coeff : Nat) : Rat) / ((10 ^ (-(d.exp + 2)).toNat : Nat) : Rat) =
        (d.coeff : Rat) * (10 : Rat) ^ d.exp * 100 := by
      push_cast
      rw [← zpow_natCast (10 : Rat) (-(d.exp + 2)).toNat, Int.toNat_of_nonneg (by omega)]
      rw [div_eq_iff (by positivity)]
      rw [show (100 : Rat) = (10 : Rat) ^ (2 : Int) by norm_num]
      rw [mul_assoc, mul_assoc, ← zpow_add₀ (by norm_num : (10 : Rat) ≠ 0),
        ← zpow_add₀ (by norm_num : (10 : Rat) ≠ 0)]
      norm_num
    rw [← hxe]
    exact divideHalfEven_halfEvenRel d.coeff (10 ^ (-(d.exp + 2)).toNat) hb

/-- The absolute value of an amount with more than two fractional digits,
in hundredths, is the exact quotient that the formatter's rescaling
rounds. -/
theorem Dec.abs_val_mul_100 (d : Dec) (he : d.exp + 2 < 0) :
    |d.val| * 100 = (d.coeff : Rat) / ((10 ^ (-(d.exp + 2)).toNat : Nat) : Rat) := by
  rw [Dec.abs_val]
  push_cast
  rw [← zpow_natCast (10 : Rat) (-(d.exp + 2)).toNat, Int.toNat_of_nonneg (by omega)]
  rw [eq_div_iff (by positivity)]
  rw [show (100 : Rat) = (10 : Rat) ^ (2 : Int) by norm_num]
  rw [mul_assoc, mul_assoc, ← zpow_add₀ (by norm_num : (10 : Rat) ≠ 0),
    ← zpow_add₀ (by norm_num : (10 : Rat) ≠ 0)]
  norm_num

/-- Claim C8: an amount with more than two fractional digits (its value in hundredths
is not an integer) is formatted by rounding its absolute value in
hundredths to the nearest integer per the half-even convention, rendering
sign, integer digits, point and two fractional digits; and the documented
case rounds up to the even neighbour. -/
theorem formatAmountRounding :
    (∀ d : Dec, d.exp + 2 < 0 → d.coeff % 10 ^ (-(d.exp + 2)).toNat ≠ 0 →
      (∀ m : Int, d.val * 100 ≠ (m : Rat)) ∧
      ∃ n : Nat, halfEvenRel n (|d.val| * 100) ∧
        format_amount d = String.mk ((if d.neg then ['-'] else []) ++
          natDigits (n / 100) ++ '.' :: pad2 (n % 100))) ∧
      format_amount ⟨false, 100456, -3⟩ = ("100.46") := by
  constructor
  · intro d he hmod
    have hbpos : 0 < 10 ^ (-(d.exp + 2)).toNat := Nat.pos_pow_of_pos _ (by norm_num)
    have hdvd : ¬ (10 ^ (-(d.exp + 2)).toNat ∣ d.coeff) := fun hd =>
      hmod (Nat.dvd_iff_mod_eq_zero.mp hd)
    have hc0 : d.coeff ≠ 0 := fun h0 => hdvd (h0 ▸ dvd_zero _)
    constructor
    · intro m hm
      apply hdvd
      have h1 : |(m : Rat)| = (d.coeff : Rat) / ((10 ^ (-(d.exp + 2)).toNat : Nat) : Rat) := by
        rw [← hm, abs_mul, show |(100 : Rat)| = 100 by norm_num, Dec.abs_val_mul_100 d he]
      have hb0 : ((10 ^ (-(d.exp + 2)).toNat : Nat) : Rat) ≠ 0 := by positivity
      have h2 : ((m.natAbs : Nat) : Rat) * ((10 ^ (-(d.exp + 2)).toNat : Nat) : Rat) =
          (d.coeff : Rat) := by
        rw [Int.cast_natAbs, Int.cast_abs, h1, div_mul_cancel₀ _ hb0]
      have h3 : m.natAbs * 10 ^ (-(d.exp + 2)).toNat = d.coeff := by exact_mod_cast h2
      exact ⟨m.natAbs, by rw [← h3]; ring⟩
    · refine ⟨rescale2 d, rescale2_halfEvenRel d, ?_⟩
      unfold format_amount
      rw [if_neg hc0]
      rfl
  · decide

/-- Witness: the rounding theorem applied to the amount 100.456. -/
theorem formatAmountRoundingWitness :
    ((Dec.mk false 100456 (-3)).exp + 2 < 0 ∧
        (Dec.mk false 100456 (-3)).coeff %
          10 ^ (-((Dec.mk false 100456 (-3)).exp + 2)).toNat ≠ 0) ∧
      ((∀ m : Int, (Dec.mk false 100456 (-3)).val * 100 ≠ (m : Rat)) ∧
        ∃ n : Nat, halfEvenRel n (|(Dec.mk false 100456 (-3)).val| * 100) ∧
          format_amount ⟨false, 100456, -3⟩ =
            String.mk ((if (Dec.mk false 100456 (-3)).neg then ['-'] else []) ++
              natDigits (n / 100) ++ '.' :: pad2 (n % 100))) :=
  ⟨⟨by decide, by decide⟩,
   formatAmountRounding.1 ⟨false, 100456, -3⟩ (by decide) (by decide)⟩

/-- The characters of a string literal are its underlying list. -/
theorem data_mk (l : List Char) : (String.mk l).data = l := rfl

/-- A generated digit character is a digit. -/
theorem digitChar_isDigit (n : Nat) : (digitChar n).isDigit = true := by
  unfold digitChar
  have h : n % 10 < 10 := Nat.mod_lt _ (by norm_num)
  generalize n % 10 = k at h ⊢
  interval_cases k <;> decide

/-- Every character emitted by the digit renderer is a digit. -/
theorem natDigitsAux_mem_isDigit :
    ∀ (fuel n : Nat) (c : Char), c ∈ natDigitsAux fuel n → c.isDigit = true := by
  intro fuel
  induction fuel with
  | zero => intro n c hc; exact absurd hc (by simp [natDigitsAux])
  | succ fuel ih =>
    intro n c hc
    rw [natDigitsAux] at hc
    by_cases h : n < 10
    · rw [if_pos h] at hc
      have hc2 := List.mem_singleton.mp hc
      subst hc2
      exact digitChar_isDigit n
    · rw [if_neg h] at hc
      rcases List.mem_append.mp hc with h1 | h2
      · exact ih _ _ h1
      · have hc2 := List.mem_singleton.mp h2
        subst hc2
        exact digitChar_isDigit _

theorem natDigits_mem_isDigit (n : Nat) (c : Char) (hc : c ∈ natDigits n) :
    c.isDigit = true :=
  natDigitsAux_mem_isDigit _ _ _ hc

/-- The digit rendering of a natural number is never empty. -/
theorem natDigits_ne_nil (n : Nat) : natDigits n ≠ [] := by
  unfold natDigits
  rw [natDigitsAux]
  by_cases h : n < 10
  · rw [if_pos h]; simp
  · rw [if_neg h]; simp

/-- The value of a decimal is zero exactly when its coefficient is zero
(this is the numeric equality the source's zero test uses). -/
theorem Dec.val_eq_zero_iff (d : Dec) : d.val = 0 ↔ d.coeff = 0 := by
  unfold Dec.val
  constructor
  · intro h
    rcases mul_eq_zero.mp h with h1 | h2
    · rcases mul_eq_zero.mp h1 with h3 | h4
      · split_ifs at h3 <;> norm_num at h3
      · exact_mod_cast h4
    · exact absurd h2 (zpow_ne_zero _ (by norm_num))
  · intro h; rw [h]; simp

/-- A nonzero decimal is negative exactly when its sign bit is set. -/
theorem Dec.val_neg_iff (d : Dec) (h : d.coeff ≠ 0) : d.val < 0 ↔ d.neg = true := by
  have hp : (0 : Rat) < (d.coeff : Rat) * (10 : Rat) ^ d.exp :=
    mul_pos (by exact_mod_cast Nat.pos_of_ne_zero h) (zpow_pos (by norm_num) _)
  unfold Dec.val
  cases hn : d.neg
  · rw [if_neg (by simp), one_mul]
    exact iff_of_false (lt_asymm hp) (by simp)
  · rw [if_pos rfl, neg_one_mul, neg_mul]
    exact iff_of_true (by linarith) rfl

/-- Claim C7: zero amounts format as the bare sentinel however the zero arose;
nonzero amounts format as an optional minus sign (present exactly for
negative values), the integer digits, a point and exactly two fractional
digit characters, never a credit suffix (the last character is a digit, so
the output never ends in the letter R); and formatting is a function of the
amount alone. -/
theorem formatAmountSpec (d : Dec) :
    (d.val = 0 → format_amount d = (".00")) ∧
      (d.val ≠ 0 → ∃ n : Nat,
        format_amount d = String.mk ((if d.val < 0 then ['-'] else []) ++
          natDigits (n / 100) ++ '.' :: pad2 (n % 100))) ∧
      ((format_amount d).data.head? = some '-' ↔ d.val < 0) ∧
      (format_amount d).data.getLast? ≠ some 'R' ∧
      ∀ d2 : Dec, d = d2 → format_amount d = format_amount d2 := by
  by_cases hc : d.coeff = 0
  · have hfmt : format_amount d = (".00") := by unfold format_amount; rw [if_pos hc]
    have hv0 : d.val = 0 := (Dec.val_eq_zero_iff d).mpr hc
    refine ⟨fun _ => hfmt, fun hne => absurd hv0 hne, ?_, ?_, fun d2 h => by rw [h]⟩
    · rw [hfmt]
      constructor
      · intro h; exact absurd h (by decide)
      · intro h; rw [hv0] at h; exact absurd h (lt_irrefl 0)
    · rw [hfmt]; decide
  · have hvne : d.val ≠ 0 := fun h => hc ((Dec.val_eq_zero_iff d).mp h)
    have hfmt : format_amount d = formatFixed2 d := by unfold format_amount; rw [if_neg hc]
    have hif : (if d.val < 0 then (['-'] : List Char) else []) =
        (if d.neg then ['-'] else []) := by
      by_cases hv : d.val < 0
      · rw [if_pos hv, if_pos ((Dec.val_neg_iff d hc).mp hv)]
      · rw [if_neg hv, if_neg (fun hn => hv ((Dec.val_neg_iff d hc).mpr hn))]
    refine ⟨fun h => absurd h hvne, fun _ => ⟨rescale2 d, by rw [hfmt, hif]; rfl⟩, ?_, ?_,
      fun d2 h => by rw [h]⟩
    · rw [hfmt]
      simp only [formatFixed2, data_mk]
      cases hn : d.neg
      · have hnn : d.neg = true → False := by rw [hn]; decide
        have hv : ¬ d.val < 0 := fun h => hnn ((Dec.val_neg_iff d hc).mp h)
        obtain ⟨c0, cs0, hds⟩ :=
          List.exists_cons_of_ne_nil (natDigits_ne_nil (rescale2 d / 100))
        have hc0d : c0.isDigit = true :=
          natDigits_mem_isDigit _ _ (hds ▸ List.mem_cons_self c0 cs0)
        rw [hds]
        simp only [Bool.false_eq_true, if_false, List.nil_append, List.cons_append,
          List.head?_cons]
        exact iff_of_false (fun h => isDigit_ne_minus hc0d (Option.some.inj h)) hv
      · have hv : d.val < 0 := (Dec.val_neg_iff d hc).mpr hn
        simpa using hv
    · rw [hfmt]
      simp only [formatFixed2, data_mk]
      have hassoc : ((if d.neg = true then ['-'] else []) ++ natDigits (rescale2 d / 100) ++
          '.' :: pad2 (rescale2 d % 100)) =
          (((if d.neg = true then ['-'] else []) ++ natDigits (rescale2 d / 100) ++
            ['.', digitChar (rescale2 d % 100 / 10)]) ++ [digitChar (rescale2 d % 100)]) := by
        simp [pad2]
      rw [hassoc, List.getLast?_concat]
      intro h
      exact isDigit_ne_R (digitChar_isDigit _) (Option.some.inj h)

/-- Witness: the formatting theorem applied to the amount -500.00. -/
theorem formatAmountSpecWitness :
    ((Dec.mk true 50000 (-2)).val ≠ 0) ∧
      ∃ n : Nat, format_amount ⟨true, 50000, -2⟩ =
        String.mk ((if (Dec.mk true 50000 (-2)).val < 0 then ['-'] else []) ++
          natDigits (n / 100) ++ '.' :: pad2 (n % 100)) := by
  have hne : (Dec.mk true 50000 (-2)).val ≠ 0 := fun h =>
    absurd ((Dec.val_eq_zero_iff _).mp h) (by decide)
  exact ⟨hne, (formatAmountSpec ⟨true, 50000, -2⟩).2.1 hne⟩

